import Mathlib

/-!
Shallow embedding of the boden layout-update scheduler
(`src/common/LayoutCoordinator.cpp`, `include/common/bdn/LayoutCoordinator.h`)
and of the thread-lifecycle contract (`include/bdn/Thread.h`).

Views are identified by their pointer value, modelled as a `Nat`.
The C++ `std::set<P<View>>` (ordered by pointer) is modelled as a sorted,
duplicate-free list of naturals maintained by `setInsert`.
`std::sort` is modelled by an insertion sort over the same comparator
semantics; the comparators are transliterations of `ToDo::operator<`
and of the inverted lambda used in the sizing phase.

The implementation file of `Thread` is not among the sources (only the
header with its API documentation is), so the thread-lifecycle operations
are modelled from the specification, as marked on each definition.
-/

namespace bdn

/-- Insertion into an ordered `std::set` of pointers: keeps the list sorted
ascending and duplicate-free (no effect when the element is present). -/
def setInsert (v : Nat) : List Nat → List Nat
  | [] => [v]
  | x :: xs => if v < x then v :: x :: xs else if v = x then x :: xs else x :: setInsert v xs

/-- Insertion step of the insertion sort used to model `std::sort`. -/
def insertSorted {α : Type} (le : α → α → Bool) (a : α) : List α → List α
  | [] => [a]
  | b :: bs => if le a b then a :: b :: bs else b :: insertSorted le a bs

/-- Model of `std::sort` with comparator-compatible semantics: an insertion
sort producing a list pairwise ordered by `le`. -/
def sortBy {α : Type} (le : α → α → Bool) : List α → List α
  | [] => []
  | a :: as => insertSorted le a (sortBy le as)

/-- State of a `LayoutCoordinator`: the two pending sets `_sizingInfoSet` and
`_layoutSet`, the `_updateScheduled` flag, and additionally the number of
drain callbacks that have been handed to `asyncCallFromMainThread` and have
not yet begun executing (this counts the queue of the dispatch facility,
which in the C++ code is external state). -/
structure CoordState where
  sizingInfoSet : List Nat
  layoutSet : List Nat
  updateScheduled : Bool
  pendingCallbacks : Nat
deriving Repr, DecidableEq

/-- Initial state of a freshly constructed coordinator. -/
def initState : CoordState :=
  { sizingInfoSet := [], layoutSet := [], updateScheduled := false, pendingCallbacks := 0 }

/-- Transliteration of `LayoutCoordinator::needUpdate`: when `_updateScheduled`
is not yet set, set it and enqueue one drain callback via
`asyncCallFromMainThread` (modelled by incrementing `pendingCallbacks`). -/
def needUpdate (s : CoordState) : CoordState :=
  if s.updateScheduled then s
  else { s with updateScheduled := true, pendingCallbacks := s.pendingCallbacks + 1 }

/-- Transliteration of `LayoutCoordinator::viewNeedsSizingInfoUpdate`:
insert into `_sizingInfoSet` under the lock, then `needUpdate()`. -/
def viewNeedsSizingInfoUpdate (s : CoordState) (pView : Nat) : CoordState :=
  needUpdate { s with sizingInfoSet := setInsert pView s.sizingInfoSet }

/-- Transliteration of `LayoutCoordinator::viewNeedsLayout`:
insert into `_layoutSet` under the lock, then `needUpdate()`. -/
def viewNeedsLayout (s : CoordState) (pView : Nat) : CoordState :=
  needUpdate { s with layoutSet := setInsert pView s.layoutSet }

/-- Beginning of the deferred drain callback enqueued by `needUpdate`:
under the lock it clears `_updateScheduled` (and it leaves the dispatch
queue, so `pendingCallbacks` decreases). `mainThreadUpdateNow` follows. -/
def drainCallbackBegin (s : CoordState) : CoordState :=
  if s.pendingCallbacks = 0 then s
  else { s with updateScheduled := false, pendingCallbacks := s.pendingCallbacks - 1 }

/-- One re-entrant request a view callback may issue against the coordinator
while it is being processed by the drain. -/
inductive Request where
  | sizing (pView : Nat)
  | layout (pView : Nat)
deriving Repr, DecidableEq

/-- Effect of the re-entrant requests issued by one view callback:
each request goes through the corresponding public coordinator operation. -/
def applyCb (s : CoordState) : List Request → CoordState
  | [] => s
  | Request.sizing v :: rest => applyCb (viewNeedsSizingInfoUpdate s v) rest
  | Request.layout v :: rest => applyCb (viewNeedsLayout s v) rest

/-- Environment of a drain: the view tree (parent links) plus the behavior of
the per-view callbacks. `walkFuel` bounds the parent walk of the `ToDo`
constructor, which in C++ is a plain while loop; it must exceed the tree
height for the walk to be meaningful. `sizingCb v` lists the coordinator
requests issued re-entrantly by `v->mainThreadUpdateSizingInfo()`, and
`layoutCb v` those issued by `v->mainThreadLayout()`. -/
structure Env where
  parent : Nat → Option Nat
  walkFuel : Nat
  sizingCb : Nat → List Request
  layoutCb : Nat → List Request

/-- Parent walk of the `ToDo` constructor: the number of parent hops from the
view to the root (`getParentView` returning null). `fuel` bounds the loop. -/
def levelOf (parent : Nat → Option Nat) : Nat → Nat → Nat
  | 0, _ => 0
  | fuel + 1, v =>
    match parent v with
    | none => 0
    | some p => levelOf parent fuel p + 1

/-- Transliteration of the local `ToDo` struct of
`LayoutCoordinator::mainThreadUpdateNow`: a view together with its level
inside the UI tree, computed at creation time. -/
structure ToDo where
  pView : Nat
  level : Nat
deriving Repr, DecidableEq

/-- Construction `ToDo(pView)`: walk the parent links to find the level. -/
def mkToDo (env : Env) (pView : Nat) : ToDo :=
  { pView := pView, level := levelOf env.parent env.walkFuel pView }

/-- Transliteration of `ToDo::operator<`: order by level, ties broken by the
view pointer value. -/
def ToDo.lt (a o : ToDo) : Bool :=
  a.level < o.level || (a.level == o.level && a.pView < o.pView)

/-- Comparator of the sizing-phase sort: the lambda `!(a<b)`, inverting the
order so that higher levels (children) come first. -/
def leSizing (a b : ToDo) : Bool := ! ToDo.lt a b

/-- Comparator of the layout-phase sort: `std::sort` with `ToDo::operator<`,
i.e. smaller levels (parents) first; as a total comparator this is
"not (b < a)". -/
def leLayout (a b : ToDo) : Bool := ! ToDo.lt b a

/-- Merge step at the top of each drain-loop iteration: the snapshot of
`_sizingInfoSet` is appended to the to-do list (each view wrapped in a
`ToDo`, taking its level), and when the snapshot was non-empty the whole
list is re-sorted with the phase's comparator. -/
def mergeToDo (env : Env) (le : ToDo → ToDo → Bool) (snap : List Nat)
    (toDoList : List ToDo) : List ToDo :=
  if snap.isEmpty then toDoList else sortBy le (toDoList ++ snap.map (mkToDo env))

/-- State update taking the snapshot: `_sizingInfoSet` is cleared under the
lock. Note that both loops of `mainThreadUpdateNow` snapshot and clear
`_sizingInfoSet` — the layout loop also reads the sizing set, exactly as the
source does. -/
def clearSizing (s : CoordState) : CoordState := { s with sizingInfoSet := [] }

/-- One drain loop of `LayoutCoordinator::mainThreadUpdateNow` (both the
sizing loop and the layout loop have this exact shape in the source; they
differ only in the comparator and in the callback invoked). Per iteration:
snapshot and clear `_sizingInfoSet`; merge the snapshot into the to-do list
and re-sort; stop if the list is empty; otherwise pop the front item and
invoke its callback (whose re-entrant requests `cb` describes). `fuel`
bounds the iteration count; `none` means the bound was hit. Returns the
trace of views whose callback was invoked, with the final state. -/
def drainLoop (env : Env) (le : ToDo → ToDo → Bool) (cb : Nat → List Request) :
    Nat → CoordState → List ToDo → Option (List Nat × CoordState)
  | 0, _, _ => none
  | fuel + 1, s, toDoList =>
    match mergeToDo env le s.sizingInfoSet toDoList with
    | [] => some ([], clearSizing s)
    | toDo :: rest =>
      match drainLoop env le cb fuel (applyCb (clearSizing s) (cb toDo.pView)) rest with
      | none => none
      | some (tr, s2) => some (toDo.pView :: tr, s2)

/-- Transliteration of `LayoutCoordinator::mainThreadUpdateNow`: first the
sizing loop (descending level, invoking `mainThreadUpdateSizingInfo`), then
the layout loop (ascending level, invoking `mainThreadLayout`). Both loops
draw from `_sizingInfoSet`, as in the source. Returns the sizing trace, the
layout trace and the final state. -/
def mainThreadUpdateNow (env : Env) (fuel : Nat) (s : CoordState) :
    Option (List Nat × List Nat × CoordState) :=
  match drainLoop env leSizing env.sizingCb fuel s [] with
  | none => none
  | some (trSizing, s1) =>
    match drainLoop env leLayout env.layoutCb fuel s1 [] with
    | none => none
    | some (trLayout, s2) => some (trSizing, trLayout, s2)

/-- Transliteration of `LayoutCoordinator::updateNow`: on the main thread run
`mainThreadUpdateNow` directly; on any other thread do nothing at all. -/
def updateNow (env : Env) (fuel : Nat) (isCurrentMain : Bool) (s : CoordState) :
    Option (List Nat × List Nat × CoordState) :=
  if isCurrentMain then mainThreadUpdateNow env fuel s
  else some ([], [], s)

/-- Events of the scheduling protocol, as linearized by the coordinator
mutex: an invalidation through either public operation, or the begin of a
previously enqueued drain callback. -/
inductive CoordOp where
  | sizingRequest (pView : Nat)
  | layoutRequest (pView : Nat)
  | callbackBegin
deriving Repr, DecidableEq

/-- One scheduling event applied to the coordinator state. -/
def coordStep (s : CoordState) : CoordOp → CoordState
  | CoordOp.sizingRequest v => viewNeedsSizingInfoUpdate s v
  | CoordOp.layoutRequest v => viewNeedsLayout s v
  | CoordOp.callbackBegin => drainCallbackBegin s

/-- State reached from a fresh coordinator by a sequence of scheduling
events. -/
def coordRun (ops : List CoordOp) : CoordState :=
  ops.foldl coordStep initState

/-- Scheduling invariant: never more than one enqueued-but-not-started drain
callback, and the `_updateScheduled` flag is set exactly while one is
enqueued. -/
def schedulingInv (s : CoordState) : Prop :=
  s.pendingCallbacks ≤ 1 ∧ (s.updateScheduled = true ↔ s.pendingCallbacks = 1)

/-- Flat view forest (every view is a root) with callbacks that issue no
re-entrant requests. -/
def flatEnv : Env :=
  { parent := fun _ => none, walkFuel := 8,
    sizingCb := fun _ => [], layoutCb := fun _ => [] }

/-- Two-view chain: view 2 is the child of view 1; no re-entrant requests. -/
def chainEnv : Env :=
  { parent := fun v => if v = 2 then some 1 else none, walkFuel := 8,
    sizingCb := fun _ => [], layoutCb := fun _ => [] }

/-- Flat forest where the sizing callback of view 1 re-entrantly registers
view 2 for a sizing update. -/
def reenterEnv : Env :=
  { parent := fun _ => none, walkFuel := 8,
    sizingCb := fun v => if v = 1 then [Request.sizing 2] else [], layoutCb := fun _ => [] }

/-- Coordinator state right after views 1 and 2 were registered for sizing
updates and the scheduled drain callback has begun. -/
def twoSizingState : CoordState :=
  drainCallbackBegin (viewNeedsSizingInfoUpdate (viewNeedsSizingInfoUpdate initState 1) 2)

/-- Coordinator state right after view 1 was registered for a sizing update
and the scheduled drain callback has begun. -/
def reenterState : CoordState :=
  drainCallbackBegin (viewNeedsSizingInfoUpdate initState 1)

/-- Final state of the sizing drain in `reenterEnv`: the re-entrant request
issued during the drain scheduled one fresh callback. -/
def reenterFinal : CoordState :=
  { sizingInfoSet := [], layoutSet := [], updateScheduled := true, pendingCallbacks := 1 }

/-- Coordinator state with a drain callback enqueued and not yet started. -/
def scheduledState : CoordState := needUpdate initState

/-- Transliteration of the `Thread::ExceptionForwarding` enum. -/
inductive ExceptionForwarding where
  | ExceptionThrow
  | ExceptionIgnore
deriving Repr, DecidableEq

/-- Errors surfaced by the thread-lifecycle operations: the
`ThreadDetachedError` of misuse after `detach()`, or a forwarded exception
captured from the runnable (its payload modelled as a `Nat`). -/
inductive ThreadError where
  | threadDetachedError
  | forwarded (e : Nat)
deriving Repr, DecidableEq

/-- Modelled from the spec: the observable state of a `Thread` object
(`Thread.cpp` with the bodies of `detach`, `join`, `stop`, `signalStop` and
the destructor is not among the sources, only the header documenting them).
Fields: whether `detach()` was called, whether the underlying thread has
ended, whether the cooperative stop flag was signalled, the stored exception
captured from the runnable's `run()` (payload as `Nat`), and the thread id
(`0` is the default-constructed Id). -/
structure ThreadState where
  detached : Bool
  ended : Bool
  stopSignalled : Bool
  storedException : Option Nat
  threadId : Nat
deriving Repr, DecidableEq

/-- Modelled from the spec: a default-constructed `Thread` object, which
"behaves like an object of a thread that has already finished" and carries a
default-constructed id. -/
def defaultThread : ThreadState :=
  { detached := false, ended := true, stopSignalled := false,
    storedException := none, threadId := 0 }

/-- Transliteration of `Thread::getId` (defined in the header): returns the
stored thread id; for a default-constructed object this is the dummy id. -/
def getId (s : ThreadState) : Nat := s.threadId

/-- Modelled from the spec: `Thread::detach` irrevocably disowns the thread;
repeated calls have no further effect. -/
def detach (s : ThreadState) : ThreadState := { s with detached := true }

/-- Modelled from the spec: whether a `join`/`stop` call on this handle would
block the caller (it blocks only while a non-detached thread still runs). -/
def wouldBlockOnJoin (s : ThreadState) : Bool := !s.ended && !s.detached

/-- Modelled from the spec: `Thread::join` raises `ThreadDetachedError` after
`detach()` (leaving the state untouched); otherwise it waits for the thread
to end and then either forwards the stored exception (`ExceptionThrow`) or
swallows it (`ExceptionIgnore`). The stored exception is not cleared. -/
def join (s : ThreadState) (exceptionForwarding : ExceptionForwarding) :
    ThreadState × Option ThreadError :=
  if s.detached then (s, some ThreadError.threadDetachedError)
  else
    match exceptionForwarding, s.storedException with
    | ExceptionForwarding.ExceptionThrow, some e =>
      ({ s with ended := true }, some (ThreadError.forwarded e))
    | _, _ => ({ s with ended := true }, none)

/-- Modelled from the spec: `Thread::stop` raises `ThreadDetachedError` after
`detach()` (without signalling anything); otherwise it signals the
cooperative stop flag (no effect if the thread already ended) and then joins
with the same forwarding choice. -/
def stop (s : ThreadState) (exceptionForwarding : ExceptionForwarding) :
    ThreadState × Option ThreadError :=
  if s.detached then (s, some ThreadError.threadDetachedError)
  else join (if s.ended then s else { s with stopSignalled := true }) exceptionForwarding

/-- Modelled from the spec: the `Thread` destructor. After `detach()` it does
nothing (no blocking, no stop signal); otherwise it behaves like
`stop(ExceptionIgnore)`, blocking while the thread still runs. Returns the
final state and whether the destructor blocked. -/
def destruct (s : ThreadState) : ThreadState × Bool :=
  if s.detached then (s, false)
  else ((stop s ExceptionForwarding.ExceptionIgnore).1, !s.ended)

/-- Modelled from the spec: the future handle returned by `Thread::exec`. It
delivers the eventual result or exception of the executed function, and
(being obtained from a packaged task rather than from `std::async`) its
destructor does not wait for the thread. -/
structure ExecFuture where
  value : Except Nat Nat
  waitsOnDestroy : Bool
deriving Repr

/-- Transliteration of `Thread::exec` (template body in the header), with the
thread internals modelled from the spec: bind the function, wrap it in a
packaged task, fetch the task's future, start a thread running the task and
detach it before returning the future. `func` is the bound function's
eventual outcome: `Except.error` for an escaping exception. -/
def exec (func : Except Nat Nat) : ThreadState × ExecFuture :=
  let resultFuture : ExecFuture := { value := func, waitsOnDestroy := false }
  let execThread : ThreadState :=
    { detached := false, ended := false, stopSignalled := false,
      storedException := none, threadId := 1 }
  (detach execThread, resultFuture)

/-- Modelled from the spec: destroying a future handle. It blocks only for a
handle that waits on destruction (as the one from `std::async` would) while
the thread still runs, and it leaves the thread state untouched (no
cancellation, no stop signal). Returns whether it blocked, and the thread's
state afterwards. -/
def destroyFuture (f : ExecFuture) (t : ThreadState) : Bool × ThreadState :=
  (f.waitsOnDestroy && !t.ended, t)

theorem mem_setInsert (v w : Nat) : ∀ l : List Nat, (w ∈ setInsert v l ↔ w = v ∨ w ∈ l) := by
  intro l
  induction l with
  | nil => simp [setInsert]
  | cons x xs ih =>
    by_cases h1 : v < x
    · simp [setInsert, h1]
    · by_cases h2 : v = x
      · subst h2
        simp [setInsert, h1]
      · simp [setInsert, h1, h2, ih]
        tauto

theorem setInsert_idem (v : Nat) : ∀ l : List Nat, setInsert v (setInsert v l) = setInsert v l := by
  intro l
  induction l with
  | nil => simp [setInsert]
  | cons x xs ih =>
    by_cases h1 : v < x
    · simp [setInsert, h1, lt_irrefl]
    · by_cases h2 : v = x
      · subst h2
        simp [setInsert, h1, lt_irrefl]
      · simp [setInsert, h1, h2, ih]

theorem count_setInsert_ne (v w : Nat) (hvw : w ≠ v) :
    ∀ l : List Nat, (setInsert v l).count w = l.count w := by
  intro l
  induction l with
  | nil => simp [setInsert, List.count_cons, List.count_nil, Ne.symm hvw]
  | cons x xs ih =>
    by_cases h1 : v < x
    · simp [setInsert, h1, List.count_cons, Ne.symm hvw]
    · by_cases h2 : v = x
      · simp [setInsert, h1, h2]
      · simp [setInsert, h1, h2, List.count_cons, ih]

theorem mem_insertSorted {α : Type} (le : α → α → Bool) (a x : α) :
    ∀ l : List α, (x ∈ insertSorted le a l ↔ x = a ∨ x ∈ l) := by
  intro l
  induction l with
  | nil => simp [insertSorted]
  | cons b bs ih =>
    by_cases h : le a b
    · simp [insertSorted, h]
    · simp [insertSorted, h, ih]
      tauto

theorem mem_sortBy {α : Type} (le : α → α → Bool) (x : α) :
    ∀ l : List α, (x ∈ sortBy le l ↔ x ∈ l) := by
  intro l
  induction l with
  | nil => simp [sortBy]
  | cons a as ih => simp [sortBy, mem_insertSorted, ih]

theorem countP_insertSorted {α : Type} (le : α → α → Bool) (p : α → Bool) (a : α) :
    ∀ l : List α, (insertSorted le a l).countP p = l.countP p + (if p a then 1 else 0) := by
  intro l
  induction l with
  | nil => simp [insertSorted, List.countP_cons]
  | cons b bs ih =>
    by_cases h : le a b
    · simp [insertSorted, h, List.countP_cons]
    · simp [insertSorted, h, List.countP_cons, ih]
      omega

theorem countP_sortBy {α : Type} (le : α → α → Bool) (p : α → Bool) :
    ∀ l : List α, (sortBy le l).countP p = l.countP p := by
  intro l
  induction l with
  | nil => simp [sortBy]
  | cons a as ih => simp [sortBy, countP_insertSorted, List.countP_cons, ih]

theorem pairwise_insertSorted {α : Type} (le : α → α → Bool)
    (htrans : ∀ a b c : α, le a b = true → le b c = true → le a c = true)
    (htotal : ∀ a b : α, le a b = true ∨ le b a = true) (a : α) :
    ∀ l : List α, l.Pairwise (fun x y => le x y = true) →
      (insertSorted le a l).Pairwise (fun x y => le x y = true) := by
  intro l
  induction l with
  | nil => simp [insertSorted]
  | cons b bs ih =>
    intro hp
    rw [List.pairwise_cons] at hp
    by_cases h : le a b
    · rw [insertSorted]
      simp only [h, if_true]
      refine List.pairwise_cons.mpr ⟨?_, List.pairwise_cons.mpr hp⟩
      intro x hx
      rcases List.mem_cons.mp hx with hx | hx
      · subst hx
        exact h
      · exact htrans a b x h (hp.1 x hx)
    · rw [insertSorted]
      simp only [h, if_false]
      refine List.pairwise_cons.mpr ⟨?_, ih hp.2⟩
      intro x hx
      rcases (mem_insertSorted le a x bs).mp hx with hx | hx
      · rw [hx]
        rcases htotal a b with h2 | h2
        · exact absurd h2 h
        · exact h2
      · exact hp.1 x hx

theorem pairwise_sortBy {α : Type} (le : α → α → Bool)
    (htrans : ∀ a b c : α, le a b = true → le b c = true → le a c = true)
    (htotal : ∀ a b : α, le a b = true ∨ le b a = true) :
    ∀ l : List α, (sortBy le l).Pairwise (fun x y => le x y = true) := by
  intro l
  induction l with
  | nil => simp [sortBy]
  | cons a as ih => exact pairwise_insertSorted le htrans htotal a _ ih

theorem needUpdate_sizingInfoSet (s : CoordState) :
    (needUpdate s).sizingInfoSet = s.sizingInfoSet := by
  rw [needUpdate]
  split <;> rfl

theorem needUpdate_layoutSet (s : CoordState) :
    (needUpdate s).layoutSet = s.layoutSet := by
  rw [needUpdate]
  split <;> rfl

theorem viewNeedsSizingInfoUpdate_sizingInfoSet (s : CoordState) (v : Nat) :
    (viewNeedsSizingInfoUpdate s v).sizingInfoSet = setInsert v s.sizingInfoSet := by
  rw [viewNeedsSizingInfoUpdate, needUpdate_sizingInfoSet]

theorem viewNeedsLayout_sizingInfoSet (s : CoordState) (v : Nat) :
    (viewNeedsLayout s v).sizingInfoSet = s.sizingInfoSet := by
  rw [viewNeedsLayout, needUpdate_sizingInfoSet]

theorem sizing_mem_applyCb_mono (w : Nat) :
    ∀ (reqs : List Request) (s : CoordState),
      w ∈ s.sizingInfoSet → w ∈ (applyCb s reqs).sizingInfoSet := by
  intro reqs
  induction reqs with
  | nil =>
    intro s h
    exact h
  | cons r rest ih =>
    intro s h
    cases r with
    | sizing v =>
      refine ih _ ?_
      rw [viewNeedsSizingInfoUpdate_sizingInfoSet]
      exact (mem_setInsert v w _).mpr (Or.inr h)
    | layout v =>
      refine ih _ ?_
      rw [viewNeedsLayout_sizingInfoSet]
      exact h

theorem sizing_mem_applyCb (w : Nat) :
    ∀ (reqs : List Request) (s : CoordState),
      Request.sizing w ∈ reqs → w ∈ (applyCb s reqs).sizingInfoSet := by
  intro reqs
  induction reqs with
  | nil =>
    intro s h
    simp at h
  | cons r rest ih =>
    intro s h
    rcases List.mem_cons.mp h with h2 | h2
    · rw [← h2]
      refine sizing_mem_applyCb_mono w rest _ ?_
      rw [viewNeedsSizingInfoUpdate_sizingInfoSet]
      exact (mem_setInsert w w _).mpr (Or.inl rfl)
    · cases r with
      | sizing v => exact ih _ h2
      | layout v => exact ih _ h2

theorem count_sizing_applyCb (v : Nat) :
    ∀ (reqs : List Request) (s : CoordState), Request.sizing v ∉ reqs →
      (applyCb s reqs).sizingInfoSet.count v = s.sizingInfoSet.count v := by
  intro reqs
  induction reqs with
  | nil =>
    intro s _
    rfl
  | cons r rest ih =>
    intro s h
    rw [List.mem_cons] at h
    push_neg at h
    cases r with
    | sizing u =>
      rw [applyCb, ih _ h.2, viewNeedsSizingInfoUpdate_sizingInfoSet]
      exact count_setInsert_ne u v (by intro he; exact h.1 (by rw [he])) _
    | layout u =>
      rw [applyCb, ih _ h.2, viewNeedsLayout_sizingInfoSet]

theorem mem_mergeToDo (env : Env) (le : ToDo → ToDo → Bool) (snap : List Nat)
    (toDoList : List ToDo) (t : ToDo) :
    t ∈ mergeToDo env le snap toDoList ↔ t ∈ toDoList ∨ t ∈ snap.map (mkToDo env) := by
  rw [mergeToDo]
  by_cases h : snap.isEmpty
  · rw [List.isEmpty_iff] at h
    subst h
    simp
  · rw [if_neg h, mem_sortBy, List.mem_append]

theorem countP_mergeToDo (env : Env) (le : ToDo → ToDo → Bool) (p : ToDo → Bool)
    (snap : List Nat) (toDoList : List ToDo) :
    (mergeToDo env le snap toDoList).countP p
      = toDoList.countP p + (snap.map (mkToDo env)).countP p := by
  rw [mergeToDo]
  by_cases h : snap.isEmpty
  · rw [List.isEmpty_iff] at h
    subst h
    simp
  · rw [if_neg h, countP_sortBy, List.countP_append]

theorem pairwise_mergeToDo (env : Env) (le : ToDo → ToDo → Bool)
    (htrans : ∀ a b c : ToDo, le a b = true → le b c = true → le a c = true)
    (htotal : ∀ a b : ToDo, le a b = true ∨ le b a = true)
    (snap : List Nat) (toDoList : List ToDo)
    (hl : toDoList.Pairwise (fun x y => le x y = true)) :
    (mergeToDo env le snap toDoList).Pairwise (fun x y => le x y = true) := by
  rw [mergeToDo]
  by_cases h : snap.isEmpty
  · rw [if_pos h]
    exact hl
  · rw [if_neg h]
    exact pairwise_sortBy le htrans htotal _

theorem wf_mergeToDo (env : Env) (le : ToDo → ToDo → Bool) (snap : List Nat)
    (toDoList : List ToDo) (hwf : ∀ t ∈ toDoList, t = mkToDo env t.pView) :
    ∀ t ∈ mergeToDo env le snap toDoList, t = mkToDo env t.pView := by
  intro t ht
  rcases (mem_mergeToDo env le snap toDoList t).mp ht with ht | ht
  · exact hwf t ht
  · rcases List.mem_map.mp ht with ⟨v, _, hv⟩
    rw [← hv]
    rfl

theorem ToDo.lt_iff (a o : ToDo) :
    ToDo.lt a o = true ↔ a.level < o.level ∨ (a.level = o.level ∧ a.pView < o.pView) := by
  simp [ToDo.lt]

theorem leSizing_iff (a b : ToDo) :
    leSizing a b = true ↔ ¬(a.level < b.level ∨ (a.level = b.level ∧ a.pView < b.pView)) := by
  rw [leSizing, Bool.not_eq_true', ← Bool.not_eq_true, not_iff_not, ToDo.lt_iff]

theorem leLayout_iff (a b : ToDo) :
    leLayout a b = true ↔ ¬(b.level < a.level ∨ (b.level = a.level ∧ b.pView < a.pView)) := by
  rw [leLayout, Bool.not_eq_true', ← Bool.not_eq_true, not_iff_not, ToDo.lt_iff]

theorem leSizing_trans (a b c : ToDo) (h1 : leSizing a b = true) (h2 : leSizing b c = true) :
    leSizing a c = true := by
  rw [leSizing_iff] at *
  omega

theorem leSizing_total (a b : ToDo) : leSizing a b = true ∨ leSizing b a = true := by
  rw [leSizing_iff, leSizing_iff]
  omega

theorem leLayout_trans (a b c : ToDo) (h1 : leLayout a b = true) (h2 : leLayout b c = true) :
    leLayout a c = true := by
  rw [leLayout_iff] at *
  omega

theorem leLayout_total (a b : ToDo) : leLayout a b = true ∨ leLayout b a = true := by
  rw [leLayout_iff, leLayout_iff]
  omega

theorem drainLoop_succ_inv (env : Env) (le : ToDo → ToDo → Bool) (cb : Nat → List Request)
    (fuel : Nat) (s : CoordState) (toDoList : List ToDo) (tr : List Nat) (s' : CoordState)
    (h : drainLoop env le cb (fuel + 1) s toDoList = some (tr, s')) :
    (mergeToDo env le s.sizingInfoSet toDoList = [] ∧ tr = [] ∧ s' = clearSizing s)
    ∨ ∃ toDo rest tr2,
        mergeToDo env le s.sizingInfoSet toDoList = toDo :: rest ∧
        drainLoop env le cb fuel (applyCb (clearSizing s) (cb toDo.pView)) rest
          = some (tr2, s') ∧
        tr = toDo.pView :: tr2 := by
  rw [drainLoop] at h
  split at h
  next hm =>
    simp only [Option.some.injEq, Prod.mk.injEq] at h
    exact Or.inl ⟨hm, h.1.symm, h.2.symm⟩
  next toDo rest hm =>
    split at h
    next hrec =>
      simp at h
    next tr2 s2 hrec =>
      simp only [Option.some.injEq, Prod.mk.injEq] at h
      refine Or.inr ⟨toDo, rest, tr2, hm, ?_, h.1.symm⟩
      rw [hrec, h.2]

theorem drainLoop_final_sizing (env : Env) (le : ToDo → ToDo → Bool) (cb : Nat → List Request) :
    ∀ (fuel : Nat) (s : CoordState) (toDoList : List ToDo) (tr : List Nat) (s' : CoordState),
      drainLoop env le cb fuel s toDoList = some (tr, s') → s'.sizingInfoSet = [] := by
  intro fuel
  induction fuel with
  | zero =>
    intro s toDoList tr s' h
    simp [drainLoop] at h
  | succ n ih =>
    intro s toDoList tr s' h
    rcases drainLoop_succ_inv env le cb n s toDoList tr s' h with
      ⟨_, _, h3⟩ | ⟨toDo, rest, tr2, _, hrec, _⟩
    · rw [h3]
      rfl
    · exact ih _ _ _ _ hrec

theorem drainLoop_complete (env : Env) (le : ToDo → ToDo → Bool) (cb : Nat → List Request) :
    ∀ (fuel : Nat) (s : CoordState) (toDoList : List ToDo) (tr : List Nat) (s' : CoordState),
      drainLoop env le cb fuel s toDoList = some (tr, s') →
      ∀ v : Nat, (v ∈ s.sizingInfoSet ∨ v ∈ toDoList.map ToDo.pView) → v ∈ tr := by
  intro fuel
  induction fuel with
  | zero =>
    intro s toDoList tr s' h
    simp [drainLoop] at h
  | succ n ih =>
    intro s toDoList tr s' h v hv
    have hmem : ∃ u ∈ mergeToDo env le s.sizingInfoSet toDoList, u.pView = v := by
      rcases hv with hv | hv
      · exact ⟨mkToDo env v,
          (mem_mergeToDo env le _ _ _).mpr (Or.inr (List.mem_map_of_mem (mkToDo env) hv)), rfl⟩
      · rcases List.mem_map.mp hv with ⟨t, ht, htv⟩
        exact ⟨t, (mem_mergeToDo env le _ _ _).mpr (Or.inl ht), htv⟩
    rcases drainLoop_succ_inv env le cb n s toDoList tr s' h with
      ⟨hm, htr, _⟩ | ⟨toDo, rest, tr2, hm, hrec, htr⟩
    · rcases hmem with ⟨u, hu, _⟩
      rw [hm] at hu
      simp at hu
    · rcases hmem with ⟨u, hu, hupv⟩
      rw [hm] at hu
      subst htr
      rcases List.mem_cons.mp hu with hu | hu
      · rw [← hupv, hu]
        exact List.mem_cons_self _ _
      · refine List.mem_cons_of_mem _ (ih _ _ _ _ hrec v (Or.inr ?_))
        rw [← hupv]
        exact List.mem_map_of_mem ToDo.pView hu

/-- Priority property of one drain loop: if the comparator never lets view
`b`'s item precede view `a`'s item, and `a` is pending (in the to-do list or
in the live sizing set), then the trace contains an invocation of `a` with no
invocation of `b` anywhere before it. -/
theorem drainLoop_priority (env : Env) (le : ToDo → ToDo → Bool) (cb : Nat → List Request)
    (htrans : ∀ a b c : ToDo, le a b = true → le b c = true → le a c = true)
    (htotal : ∀ a b : ToDo, le a b = true ∨ le b a = true)
    (a b : Nat) (hle : le (mkToDo env b) (mkToDo env a) = false) :
    ∀ (fuel : Nat) (s : CoordState) (toDoList : List ToDo) (tr : List Nat) (s' : CoordState),
      toDoList.Pairwise (fun x y => le x y = true) →
      (∀ t ∈ toDoList, t = mkToDo env t.pView) →
      (mkToDo env a ∈ toDoList ∨ a ∈ s.sizingInfoSet) →
      drainLoop env le cb fuel s toDoList = some (tr, s') →
      ∃ tr₁ tr₂, tr = tr₁ ++ a :: tr₂ ∧ b ∉ tr₁ := by
  intro fuel
  induction fuel with
  | zero =>
    intro s toDoList tr s' _ _ _ h
    simp [drainLoop] at h
  | succ n ih =>
    intro s toDoList tr s' hsorted hwf hpend h
    have hamem : mkToDo env a ∈ mergeToDo env le s.sizingInfoSet toDoList := by
      rcases hpend with hp | hp
      · exact (mem_mergeToDo env le _ _ _).mpr (Or.inl hp)
      · exact (mem_mergeToDo env le _ _ _).mpr
          (Or.inr (List.mem_map_of_mem (mkToDo env) hp))
    have hsorted' : (mergeToDo env le s.sizingInfoSet toDoList).Pairwise
        (fun x y => le x y = true) := pairwise_mergeToDo env le htrans htotal _ _ hsorted
    have hwf' : ∀ t ∈ mergeToDo env le s.sizingInfoSet toDoList, t = mkToDo env t.pView :=
      wf_mergeToDo env le _ _ hwf
    rcases drainLoop_succ_inv env le cb n s toDoList tr s' h with
      ⟨hm, _, _⟩ | ⟨toDo, rest, tr2, hm, hrec, htr⟩
    · rw [hm] at hamem
      simp at hamem
    · rw [hm] at hamem hsorted' hwf'
      by_cases hhead : toDo.pView = a
      · exact ⟨[], tr2, by rw [htr, hhead]; rfl, List.not_mem_nil b⟩
      · have hanext : mkToDo env a ∈ rest := by
          rcases List.mem_cons.mp hamem with hx | hx
          · exact absurd (congrArg ToDo.pView hx.symm) hhead
          · exact hx
        have hbne : toDo.pView ≠ b := by
          intro hb
          have : toDo = mkToDo env b := by
            have := hwf' toDo (List.mem_cons_self _ _)
            rw [hb] at this
            exact this
          have hlt := (List.pairwise_cons.mp hsorted').1 (mkToDo env a) hanext
          rw [this] at hlt
          simp [hlt] at hle
        obtain ⟨tr₁, tr₂, htr2, hbtr⟩ := ih _ _ _ _
          (List.pairwise_cons.mp hsorted').2
          (fun t ht => hwf' t (List.mem_cons_of_mem _ ht))
          (Or.inl hanext) hrec
        refine ⟨toDo.pView :: tr₁, tr₂, ?_, ?_⟩
        · rw [htr, htr2]
          rfl
        · intro hc
          rcases List.mem_cons.mp hc with hc | hc
          · exact hbne hc.symm
          · exact hbtr hc

/-- Exact invocation count of one drain loop for a view `v` that no callback
re-registers for sizing: the number of invocations of `v` equals the number of
`v`-items in the initial to-do list plus the number of occurrences of `v` in
the initial live sizing set. -/
theorem drainLoop_count (env : Env) (le : ToDo → ToDo → Bool) (cb : Nat → List Request)
    (v : Nat) (hnore : ∀ u : Nat, Request.sizing v ∉ cb u) :
    ∀ (fuel : Nat) (s : CoordState) (toDoList : List ToDo) (tr : List Nat) (s' : CoordState),
      drainLoop env le cb fuel s toDoList = some (tr, s') →
      tr.count v = toDoList.countP (fun t => t.pView == v) + s.sizingInfoSet.count v := by
  intro fuel
  induction fuel with
  | zero =>
    intro s toDoList tr s' h
    simp [drainLoop] at h
  | succ n ih =>
    intro s toDoList tr s' h
    have hcm : (mergeToDo env le s.sizingInfoSet toDoList).countP (fun t => t.pView == v)
        = toDoList.countP (fun t => t.pView == v) + s.sizingInfoSet.count v := by
      rw [countP_mergeToDo, List.countP_map]
      congr 1
    rcases drainLoop_succ_inv env le cb n s toDoList tr s' h with
      ⟨hm, htr, _⟩ | ⟨toDo, rest, tr2, hm, hrec, htr⟩
    · rw [hm] at hcm
      rw [htr]
      simp at hcm ⊢
      omega
    · rw [hm] at hcm
      have hrec2 := ih _ _ _ _ hrec
      rw [count_sizing_applyCb v _ _ (hnore toDo.pView)] at hrec2
      rw [htr, List.count_cons, hrec2]
      rw [List.countP_cons] at hcm
      simp only [clearSizing, List.count_nil] at *
      by_cases hv : toDo.pView = v
      · simp only [hv, beq_self_eq_true, if_true] at hcm ⊢
        omega
      · have : (toDo.pView == v) = false := beq_eq_false_iff_ne.mpr hv
        simp only [this, if_false] at hcm ⊢
        omega

theorem indexOf_split_lt (a b : Nat) (hba : b ≠ a) :
    ∀ (l₁ l₂ : List Nat), b ∉ l₁ →
      List.indexOf a (l₁ ++ a :: l₂) < List.indexOf b (l₁ ++ a :: l₂) := by
  intro l₁
  induction l₁ with
  | nil =>
    intro l₂ _
    rw [List.nil_append, List.indexOf_cons_self, List.indexOf_cons_ne _ (Ne.symm hba)]
    exact Nat.succ_pos _
  | cons x xs ih =>
    intro l₂ hb
    rw [List.mem_cons] at hb
    push_neg at hb
    by_cases hxa : x = a
    · rw [hxa, List.cons_append, List.indexOf_cons_self,
        List.indexOf_cons_ne _ (Ne.symm hba)]
      exact Nat.succ_pos _
    · rw [List.cons_append, List.indexOf_cons_ne _ hxa,
        List.indexOf_cons_ne _ (Ne.symm hb.1)]
      exact Nat.succ_lt_succ (ih l₂ hb.2)

/-- Re-entrancy absorption of one drain loop: a view registered for sizing by
the callback of the `i`-th invoked view is itself invoked at a strictly later
position of the same loop's trace. -/
theorem drainLoop_absorb (env : Env) (le : ToDo → ToDo → Bool) (cb : Nat → List Request) :
    ∀ (fuel : Nat) (s : CoordState) (toDoList : List ToDo) (tr : List Nat) (s' : CoordState),
      drainLoop env le cb fuel s toDoList = some (tr, s') →
      ∀ (i : Nat) (hi : i < tr.length) (w : Nat), Request.sizing w ∈ cb tr[i] →
        ∃ (j : Nat) (hj : j < tr.length), i < j ∧ tr[j] = w := by
  intro fuel
  induction fuel with
  | zero =>
    intro s toDoList tr s' h
    simp [drainLoop] at h
  | succ n ih =>
    intro s toDoList tr s' h i hi w hw
    rcases drainLoop_succ_inv env le cb n s toDoList tr s' h with
      ⟨_, htr, _⟩ | ⟨toDo, rest, tr2, hm, hrec, htr⟩
    · subst htr
      simp at hi
    · subst htr
      cases i with
      | zero =>
        have hw0 : Request.sizing w ∈ cb toDo.pView := by
          simpa using hw
        have hwin : w ∈ (applyCb (clearSizing s) (cb toDo.pView)).sizingInfoSet :=
          sizing_mem_applyCb w _ _ hw0
        have hwtr : w ∈ tr2 :=
          drainLoop_complete env le cb n _ _ _ _ hrec w (Or.inl hwin)
        rcases List.getElem_of_mem hwtr with ⟨j, hj, hje⟩
        exact ⟨j + 1, by simpa using Nat.succ_lt_succ hj, Nat.succ_pos j, by simpa using hje⟩
      | succ i' =>
        have hi' : i' < tr2.length := by simpa using Nat.lt_of_succ_lt_succ hi
        have hw' : Request.sizing w ∈ cb tr2[i'] := by
          simpa using hw
        rcases ih _ _ _ _ hrec i' hi' w hw' with ⟨j, hj, hij, hje⟩
        exact ⟨j + 1, by simpa using Nat.succ_lt_succ hj, Nat.succ_lt_succ hij,
          by simpa using hje⟩

theorem needUpdate_idem (s : CoordState) : needUpdate (needUpdate s) = needUpdate s := by
  by_cases h : s.updateScheduled
  · simp [needUpdate, h]
  · simp [needUpdate, h]

theorem viewNeedsSizingInfoUpdate_idem (s : CoordState) (v : Nat) :
    viewNeedsSizingInfoUpdate (viewNeedsSizingInfoUpdate s v) v
      = viewNeedsSizingInfoUpdate s v := by
  rcases s with ⟨sz, ly, us, pc⟩
  by_cases h : us
  · simp [viewNeedsSizingInfoUpdate, needUpdate, h, setInsert_idem]
  · simp [viewNeedsSizingInfoUpdate, needUpdate, h, setInsert_idem]

theorem viewNeedsLayout_idem (s : CoordState) (v : Nat) :
    viewNeedsLayout (viewNeedsLayout s v) v = viewNeedsLayout s v := by
  rcases s with ⟨sz, ly, us, pc⟩
  by_cases h : us
  · simp [viewNeedsLayout, needUpdate, h, setInsert_idem]
  · simp [viewNeedsLayout, needUpdate, h, setInsert_idem]

theorem schedulingInv_needUpdate (s : CoordState) (h : schedulingInv s) :
    schedulingInv (needUpdate s) := by
  obtain ⟨h1, h2⟩ := h
  by_cases hf : s.updateScheduled
  · simpa [needUpdate, hf] using ⟨h1, h2⟩
  · have : ¬s.pendingCallbacks = 1 := fun hc => hf (h2.mpr hc)
    simp [schedulingInv, needUpdate, hf]
    omega

theorem schedulingInv_step (s : CoordState) (op : CoordOp) (h : schedulingInv s) :
    schedulingInv (coordStep s op) := by
  obtain ⟨h1, h2⟩ := h
  cases op with
  | sizingRequest v =>
    exact schedulingInv_needUpdate _ ⟨h1, h2⟩
  | layoutRequest v =>
    exact schedulingInv_needUpdate _ ⟨h1, h2⟩
  | callbackBegin =>
    by_cases hp : s.pendingCallbacks = 0
    · simpa [coordStep, drainCallbackBegin, hp] using ⟨h1, h2⟩
    · simp [schedulingInv, coordStep, drainCallbackBegin, hp]
      omega

theorem schedulingInv_run (ops : List CoordOp) :
    ∀ s : CoordState, schedulingInv s → schedulingInv (ops.foldl coordStep s) := by
  induction ops with
  | nil =>
    intro s h
    exact h
  | cons op rest ih =>
    intro s h
    exact ih _ (schedulingInv_step s op h)

/-- C1: refuted by the code. The layout loop of `mainThreadUpdateNow`
snapshots `_sizingInfoSet` (not `_layoutSet`), so a view registered via
`viewNeedsLayout` never has `mainThreadLayout` invoked: with view 5
registered for layout and nothing else pending, the drain invokes no
callback at all and leaves 5 sitting in the layout set. -/
theorem phaseB_reads_sizing_set_bug :
    mainThreadUpdateNow flatEnv 4 (drainCallbackBegin (viewNeedsLayout initState 5))
      = some ([], [],
          { sizingInfoSet := [], layoutSet := [5],
            updateScheduled := false, pendingCallbacks := 0 }) := rfl

/-- C2 (counterexample): views 1 and 2 are both roots (equal depth 0) and
both pending for sizing, yet the sizing phase invokes view 2 (the greater
identity) first — the trace is [2, 1] — refuting the claimed ascending
identity tie-break. -/
theorem phaseA_tie_break_counterexample :
    (mainThreadUpdateNow flatEnv 4 twoSizingState).map (fun r => r.1) = some [2, 1]
    ∧ levelOf flatEnv.parent flatEnv.walkFuel 1 = levelOf flatEnv.parent flatEnv.walkFuel 2
    ∧ ¬ List.indexOf 1 [2, 1] < List.indexOf 2 [2, 1] :=
  ⟨rfl, rfl, by decide⟩

/-- C2 (amended): in the sizing phase, for two views pending in the same
batch, the one with greater depth is invoked strictly first, and among
equal-depth views the one with GREATER identity is invoked first (the
inverted comparator `!(a<b)` inverts the identity tie-break as well). -/
theorem phaseA_descending_depth_order (env : Env) (fuel : Nat) (s : CoordState)
    (a b : Nat) (tr : List Nat) (s' : CoordState)
    (ha : a ∈ s.sizingInfoSet) (hb : b ∈ s.sizingInfoSet)
    (hkey : levelOf env.parent env.walkFuel b < levelOf env.parent env.walkFuel a
      ∨ (levelOf env.parent env.walkFuel b = levelOf env.parent env.walkFuel a ∧ b < a))
    (hrun : drainLoop env leSizing env.sizingCb fuel s [] = some (tr, s')) :
    a ∈ tr ∧ b ∈ tr ∧ List.indexOf a tr < List.indexOf b tr := by
  have hba : b ≠ a := by
    intro he
    rw [he] at hkey
    omega
  have hle : leSizing (mkToDo env b) (mkToDo env a) = false := by
    rw [Bool.eq_false_iff, Ne, leSizing_iff, not_not]
    exact hkey
  obtain ⟨tr₁, tr₂, htr, hbtr⟩ := drainLoop_priority env leSizing env.sizingCb
    leSizing_trans leSizing_total a b hle fuel s [] tr s' List.Pairwise.nil
    (fun t ht => absurd ht (List.not_mem_nil t)) (Or.inr ha) hrun
  have hbmem : b ∈ tr :=
    drainLoop_complete env leSizing env.sizingCb fuel s [] tr s' hrun b (Or.inl hb)
  subst htr
  exact ⟨List.mem_append.mpr (Or.inr (List.mem_cons_self _ _)), hbmem,
    indexOf_split_lt a b hba tr₁ tr₂ hbtr⟩

/-- C2 (witness): in the chain 1 → 2 (view 2 deeper), with both views
pending for sizing, the sizing phase invokes 2 before 1. -/
theorem phaseA_descending_depth_order_witness :
    2 ∈ twoSizingState.sizingInfoSet
    ∧ 1 ∈ twoSizingState.sizingInfoSet
    ∧ (levelOf chainEnv.parent chainEnv.walkFuel 1 < levelOf chainEnv.parent chainEnv.walkFuel 2
        ∨ (levelOf chainEnv.parent chainEnv.walkFuel 1
              = levelOf chainEnv.parent chainEnv.walkFuel 2 ∧ 1 < 2))
    ∧ (2 ∈ ([2, 1] : List Nat) ∧ 1 ∈ ([2, 1] : List Nat)
        ∧ List.indexOf 2 ([2, 1] : List Nat) < List.indexOf 1 ([2, 1] : List Nat)) :=
  ⟨by decide, by decide, by decide,
    phaseA_descending_depth_order chainEnv 4 twoSizingState 2 1 [2, 1] initState
      (by decide) (by decide) (by decide) rfl⟩

/-- C3: refuted by the code. With the chain 1 → 2 and both views registered
for layout, the drain invokes no `mainThreadLayout` at all (the layout loop
reads the — empty — sizing set), so no ancestor-before-descendant layout
order is ever realized; both views stay in the layout set. -/
theorem phaseB_ancestor_order_never_realized :
    mainThreadUpdateNow chainEnv 4
        (drainCallbackBegin (viewNeedsLayout (viewNeedsLayout initState 1) 2))
      = some ([], [],
          { sizingInfoSet := [], layoutSet := [1, 2],
            updateScheduled := false, pendingCallbacks := 0 }) := rfl

/-- C4: at most one deferred drain callback is outstanding: from a fresh
coordinator, any sequence of invalidations and callback begins keeps the
count of enqueued-but-not-started callbacks at most one, with
`_updateScheduled` set exactly while one is enqueued; and an invalidation
arriving while the flag is set enqueues nothing further. -/
theorem single_scheduled_callback_invariant :
    (∀ ops : List CoordOp, (coordRun ops).pendingCallbacks ≤ 1
      ∧ ((coordRun ops).updateScheduled = true ↔ (coordRun ops).pendingCallbacks = 1))
    ∧ (∀ (s : CoordState) (v : Nat), s.updateScheduled = true →
        (viewNeedsSizingInfoUpdate s v).pendingCallbacks = s.pendingCallbacks
        ∧ (viewNeedsLayout s v).pendingCallbacks = s.pendingCallbacks
        ∧ (viewNeedsSizingInfoUpdate s v).updateScheduled = true
        ∧ (viewNeedsLayout s v).updateScheduled = true) := by
  constructor
  · intro ops
    exact schedulingInv_run ops initState ⟨by simp [initState], by simp [initState]⟩
  · intro s v h
    refine ⟨?_, ?_, ?_, ?_⟩ <;>
      simp [viewNeedsSizingInfoUpdate, viewNeedsLayout, needUpdate, h]

/-- C4 (witness): with one callback enqueued (flag set), a further sizing or
layout invalidation enqueues nothing and leaves the flag set. -/
theorem single_scheduled_callback_invariant_witness :
    scheduledState.updateScheduled = true
    ∧ ((viewNeedsSizingInfoUpdate scheduledState 3).pendingCallbacks
          = scheduledState.pendingCallbacks
        ∧ (viewNeedsLayout scheduledState 3).pendingCallbacks
          = scheduledState.pendingCallbacks
        ∧ (viewNeedsSizingInfoUpdate scheduledState 3).updateScheduled = true
        ∧ (viewNeedsLayout scheduledState 3).updateScheduled = true) :=
  ⟨by decide, single_scheduled_callback_invariant.2 scheduledState 3 (by decide)⟩

/-- C5: the sizing phase absorbs re-entrant insertions within the same
drain: when the loop terminates, the live sizing set is empty (the loop only
exits once the merged working list is empty), and any view registered for
sizing by the callback of the i-th invoked view is itself invoked at a
strictly later position of the same loop's trace. -/
theorem phaseA_absorbs_reentrant (env : Env) (fuel : Nat) (s : CoordState)
    (tr : List Nat) (s' : CoordState)
    (hrun : drainLoop env leSizing env.sizingCb fuel s [] = some (tr, s')) :
    s'.sizingInfoSet = []
    ∧ ∀ (i : Nat) (hi : i < tr.length) (w : Nat), Request.sizing w ∈ env.sizingCb tr[i] →
        ∃ (j : Nat) (hj : j < tr.length), i < j ∧ tr[j] = w :=
  ⟨drainLoop_final_sizing env leSizing env.sizingCb fuel s [] tr s' hrun,
   drainLoop_absorb env leSizing env.sizingCb fuel s [] tr s' hrun⟩

/-- C5 (witness): view 1's sizing callback re-registers view 2; the same
drain's sizing phase invokes 2 right after 1 and ends with an empty live
set. -/
theorem phaseA_absorbs_reentrant_witness :
    drainLoop reenterEnv leSizing reenterEnv.sizingCb 4 reenterState []
        = some ([1, 2], reenterFinal)
    ∧ (reenterFinal.sizingInfoSet = []
        ∧ ∀ (i : Nat) (hi : i < ([1, 2] : List Nat).length) (w : Nat),
            Request.sizing w ∈ reenterEnv.sizingCb (([1, 2] : List Nat)[i]) →
            ∃ (j : Nat) (hj : j < ([1, 2] : List Nat).length),
              i < j ∧ ([1, 2] : List Nat)[j] = w) :=
  ⟨rfl, phaseA_absorbs_reentrant reenterEnv 4 reenterState [1, 2] reenterFinal rfl⟩

/-- C6: partially refuted by the code. Registration is idempotent (repeated
insertion of the same view leaves the state unchanged, so the view appears
at most once in any snapshot), and for sizing the next drain invokes the
view's callback exactly once; but for a view registered only via
`viewNeedsLayout`, the drain invokes its `mainThreadLayout` zero times (not
once), because the layout loop reads the sizing set. -/
theorem invalidation_idempotence_bug :
    (∀ (s : CoordState) (v : Nat),
      viewNeedsSizingInfoUpdate (viewNeedsSizingInfoUpdate s v) v
          = viewNeedsSizingInfoUpdate s v
      ∧ viewNeedsLayout (viewNeedsLayout s v) v = viewNeedsLayout s v)
    ∧ (mainThreadUpdateNow flatEnv 4
          (drainCallbackBegin
            (viewNeedsSizingInfoUpdate (viewNeedsSizingInfoUpdate initState 7) 7))).map
        (fun r => r.1.count 7) = some 1
    ∧ (mainThreadUpdateNow flatEnv 4
          (drainCallbackBegin (viewNeedsLayout (viewNeedsLayout initState 7) 7))).map
        (fun r => (r.2.1.count 7, r.2.2.layoutSet)) = some (0, [7]) :=
  ⟨fun s v => ⟨viewNeedsSizingInfoUpdate_idem s v, viewNeedsLayout_idem s v⟩, rfl, rfl⟩

/-- C7: after detach, join and stop always raise the detached error (with
the state untouched) for either forwarding mode and any prior state; detach
is idempotent; and destruction after detach neither blocks nor signals
stop. -/
theorem detach_semantics (s : ThreadState) (fwd : ExceptionForwarding) :
    join (detach s) fwd = (detach s, some ThreadError.threadDetachedError)
    ∧ stop (detach s) fwd = (detach s, some ThreadError.threadDetachedError)
    ∧ detach (detach s) = detach s
    ∧ destruct (detach s) = (detach s, false) :=
  ⟨rfl, rfl, rfl, rfl⟩

/-- C8: Thread.exec returns with the spawned thread already detached and a
future holding the function's eventual result or exception; destroying that
future neither blocks nor touches the thread (no cancellation, no stop
signal). -/
theorem exec_detached_future_semantics (func : Except Nat Nat) :
    (exec func).1.detached = true
    ∧ (exec func).1.stopSignalled = false
    ∧ (exec func).2.value = func
    ∧ destroyFuture (exec func).2 (exec func).1 = (false, (exec func).1) :=
  ⟨rfl, rfl, rfl, rfl⟩

/-- C9: updateNow called off the main thread is a pure no-op — the returned
state is the input state (both pending sets, the flag and the callback queue
unchanged) and no callback is invoked; on the main thread it is exactly
`mainThreadUpdateNow`, run without touching `_updateScheduled` first. -/
theorem updateNow_off_main_noop (env : Env) (fuel : Nat) (s : CoordState) :
    updateNow env fuel false s = some ([], [], s)
    ∧ updateNow env fuel true s = mainThreadUpdateNow env fuel s :=
  ⟨rfl, rfl⟩

/-- C10: a default-constructed Thread behaves like the handle of a finished
thread: join and stop return without error and without blocking for either
forwarding mode, getId yields the default id, and destruction does not
block. -/
theorem default_thread_behaves_finished (fwd : ExceptionForwarding) :
    join defaultThread fwd = (defaultThread, none)
    ∧ stop defaultThread fwd = (defaultThread, none)
    ∧ wouldBlockOnJoin defaultThread = false
    ∧ getId defaultThread = 0
    ∧ destruct defaultThread = (defaultThread, false) := by
  cases fwd <;> exact ⟨rfl, rfl, rfl, rfl, rfl⟩

end bdn
